import Mathlib

/-!
Shallow embedding of the Studymate content-retrieval and excerpt-sizing core.

Sources embedded:
- `Studymate/ai_assistant_remote.py`, `_extract_relevant_content` (lines 265-355):
  the Excerpt Extractor and its mode policy.
- `Studymate/pdf_processor.py`, `get_expanded_content` (lines 115-196):
  the Expansion Extractor, and `search_in_pdf` (lines 93-113).

Python strings are modelled as Lean `String` values viewed through their
character list (`String.data`); Python `len` is the character count, `str.strip`
removes leading/trailing whitespace, `str.lower` lowercases each character
(ASCII), `str.split('\n')` splits on every newline keeping empty pieces, and
`str.split()` splits on whitespace runs dropping empty pieces.  Substring tests
(`in`, `find`) are modelled by an explicit first-occurrence search.
-/

/-- Split a character list at every character satisfying `p`, keeping empty
pieces; models Python `str.split(sep)` for a one-character separator when
`p = (· = sep)`.  The result is always non-empty. -/
def splitOnPred (p : Char → Bool) : List Char → List (List Char)
  | [] => [[]]
  | c :: rest =>
    match splitOnPred p rest with
    | [] => [[]]
    | h :: t => if p c then [] :: h :: t else (c :: h) :: t

/-- Python `s.split('\n')` on the character level. -/
def splitOnNL (l : List Char) : List (List Char) :=
  splitOnPred (fun c => c == '\n') l

/-- Python `s.split('\n')`, producing strings. -/
def pySplitNL (s : String) : List String :=
  (splitOnNL s.data).map (fun l => (⟨l⟩ : String))

/-- Python `s.split()` (split on whitespace runs, drop empty words). -/
def pySplitWS (s : String) : List String :=
  ((splitOnPred Char.isWhitespace s.data).filter (fun w => !w.isEmpty)).map
    (fun w => (⟨w⟩ : String))

/-- Python `s.lower()` (per-character lowercasing). -/
def pyLower (s : String) : String := ⟨s.data.map Char.toLower⟩

/-- Strip leading and trailing whitespace from a character list. -/
def stripChars (l : List Char) : List Char :=
  ((l.dropWhile Char.isWhitespace).reverse.dropWhile Char.isWhitespace).reverse

/-- Python `s.strip()`. -/
def pyStrip (s : String) : String := ⟨stripChars s.data⟩

/-- Python `s.isupper()` for ASCII text: at least one letter, and every letter
is uppercase. -/
def pyIsUpper (s : String) : Bool :=
  s.data.any Char.isAlpha && s.data.all (fun c => !c.isAlpha || c.isUpper)

/-- Python `s.endswith('.')`. -/
def pyEndsWithDot (s : String) : Bool := s.data.getLast? == some '.'

/-- First index at which `needle` occurs in `hay` as a contiguous substring;
models Python `hay.find(needle)` (and `needle in hay` via `Option.isSome`). -/
def findSub (needle : List Char) : List Char → Option Nat
  | [] => if needle.isEmpty then some 0 else none
  | c :: rest =>
    if needle.isPrefixOf (c :: rest) then some 0
    else (findSub needle rest).map (· + 1)

/-- Python `needle in hay`. -/
def pyContains (hay needle : String) : Bool := (findSub needle.data hay.data).isSome

/-- Index of the first element satisfying `pred`; models the
`for i, line in enumerate(...)` search loops with `break`. -/
def findMatchIdx {α : Type} (pred : α → Bool) : List α → Option Nat
  | [] => none
  | x :: rest => if pred x then some 0 else (findMatchIdx pred rest).map (· + 1)

/-- Python truthiness of an `Optional[int]`: `None` and `0` are falsy. -/
def truthyOpt : Option Int → Bool
  | none => false
  | some x => decide (x ≠ 0)

/-- Marks band of the mode policy (`ai_assistant_remote.py` lines 287-295,
duplicated in `pdf_processor.py` lines 143-151). -/
def examBand (m : Int) : Nat :=
  if m ≤ 5 then 10 else if m ≤ 10 then 20 else if m ≤ 15 then 30 else 30

/-- Age band of the mode policy (`ai_assistant_remote.py` lines 296-304,
duplicated in `pdf_processor.py` lines 152-160). -/
def ageBand (a : Int) : Nat :=
  if a ≤ 5 then 10 else if a ≤ 10 then 20 else if a ≤ 15 then 30 else 20

/-- The shared line-count policy: `if mode == "examination" and marks: ...
elif mode == "age_appropriate" and age: ... elif mode == "general": 50
else: 10`. -/
def linesNeeded (mode : String) (marks age : Option Int) : Nat :=
  if mode = "examination" ∧ truthyOpt marks then examBand (marks.getD 0)
  else if mode = "age_appropriate" ∧ truthyOpt age then ageBand (age.getD 0)
  else if mode = "general" then 50
  else 10

/-- The mode-policy table transcribed from the specification (section 4.1):
bands keyed on the mode with an explicit default for a missing parameter or
an unrecognized mode. -/
def linesNeededSpec (mode : String) (marks age : Option Int) : Nat :=
  if mode = "examination" then
    match marks with
    | none => 10
    | some m => if m ≤ 5 then 10 else if m ≤ 10 then 20 else if m ≤ 15 then 30 else 30
  else if mode = "age_appropriate" then
    match age with
    | none => 10
    | some a => if a ≤ 5 then 10 else if a ≤ 10 then 20 else if a ≤ 15 then 30 else 20
  else if mode = "general" then 50
  else 10

/-- The literal heading markers `('1.', '2.', '3.', '4.', '5.', 'Chapter',
'CHAPTER')` used by both extractors. -/
def headingPrefixes : List String := ["1.", "2.", "3.", "4.", "5.", "Chapter", "CHAPTER"]

/-- The heading test of the Excerpt Extractor (`ai_assistant_remote.py` lines
316-317): fully uppercase and longer than 10 characters, or starting with one
of the literal markers.  The Expansion Extractor applies the same two tests as
two consecutive `break` conditions (`pdf_processor.py` lines 175-179). -/
def isHeading (line : String) : Bool :=
  (pyIsUpper line && decide (10 < line.length)) ||
  headingPrefixes.any (fun p => p.data.isPrefixOf line.data)

/-- General-mode sentence stop, checked after appending a line: the collected
count `n` has reached 50 and the line ends with a full stop. -/
def stopGeneral (mode : String) (cur : String) (n : Nat) : Bool :=
  mode == "general" && pyEndsWithDot cur && decide (50 ≤ n)

/-- Bounded-mode sentence stop, checked after appending a line: examination or
age-appropriate mode, the collected count `n` has reached `needed`, and the
line ends with a full stop. -/
def stopBounded (mode : String) (needed : Nat) (cur : String) (n : Nat) : Bool :=
  (mode == "examination" || mode == "age_appropriate") && decide (needed ≤ n) &&
    pyEndsWithDot cur

/-- Collection loop of the Excerpt Extractor (`ai_assistant_remote.py` lines
311-331): skip blank lines, stop at a heading only when more than 3 lines are
already collected (otherwise the heading line is appended too), and apply the
two sentence stops after appending.  `count` is the number of lines collected
so far. -/
def extractLoop (mode : String) (needed : Nat) : List String → Nat → List String
  | [], _ => []
  | line :: rest, count =>
    let cur := pyStrip line
    if cur = "" then extractLoop mode needed rest count
    else if isHeading cur && decide (3 < count) then []
    else
      cur :: (if stopGeneral mode cur (count + 1) || stopBounded mode needed cur (count + 1)
              then [] else extractLoop mode needed rest (count + 1))

/-- No-match fallback loop (`ai_assistant_remote.py` lines 338-343): over the
first 50 lines, collect the stripped form of each line whose stripped form is
non-empty and longer than 20 characters, stopping once 8 are collected. -/
def fallbackCollect : List String → Nat → List String
  | [], _ => []
  | line :: rest, count =>
    if pyStrip line ≠ "" ∧ 20 < (pyStrip line).length then
      pyStrip line :: (if 8 ≤ count + 1 then [] else fallbackCollect rest (count + 1))
    else fallbackCollect rest count

/-- Character-level `'\n'.join`. -/
def icnl : List (List Char) → List Char
  | [] => []
  | [p] => p
  | p :: rest => p ++ '\n' :: icnl rest

/-- Python `'\n'.join(lines)`. -/
def joinNL (ls : List String) : String := ⟨icnl (ls.map String.data)⟩

/-- One pass of Python `content.replace('\n\n\n', '\n\n')`: leftmost,
non-overlapping replacement of every occurrence. -/
def replace3n : List Char → List Char
  | c₁ :: c₂ :: c₃ :: rest =>
    if c₁ = '\n' ∧ c₂ = '\n' ∧ c₃ = '\n' then '\n' :: '\n' :: replace3n rest
    else c₁ :: replace3n (c₂ :: c₃ :: rest)
  | l => l

/-- A single apostrophe, kept out of string literals. -/
def apos : String := ⟨['\'']⟩

/-- Text of the pointer message before the interpolated question. -/
def pointerPre : String := "Content related to " ++ apos

/-- Text of the pointer message after the interpolated question. -/
def pointerPost : String :=
  apos ++
    " can be found in your uploaded PDF. Please use the search feature for more specific results."

/-- The pointer message
`f"Content related to '{question}' can be found in your uploaded PDF. Please
use the search feature for more specific results."`. -/
def pointerMessage (question : String) : String :=
  pointerPre ++ question ++ pointerPost

/-- Post-processing of the Excerpt Extractor (`ai_assistant_remote.py` lines
346-355): join with newlines, collapse `'\n\n\n'`, and fall back to the
pointer message when the stripped result is empty. -/
def finishContent (question : String) (relevantLines : List String) : String :=
  let content : String := ⟨replace3n (joinNL relevantLines).data⟩
  if pyStrip content = "" then pointerMessage question else pyStrip content

/-- Whether a line matches the question: some question word longer than 3
characters occurs in the lowercased line (`ai_assistant_remote.py` line 281). -/
def lineMatches (questionWords : List String) (line : String) : Bool :=
  questionWords.any (fun word => decide (3 < word.length) && pyContains (pyLower line) word)

/-- The lines collected by the match loop of `_extract_relevant_content`
(`ai_assistant_remote.py` lines 278-334): on the first matching line at index
`i`, scan the window `range(max(0, i-2), min(len, max(0, i-2) + lines_needed + 5))`
with `extractLoop`; when no line matches, nothing is collected. -/
def collectedLines (pdfContent question mode : String) (marks age : Option Int) :
    List String :=
  match findMatchIdx (lineMatches (pySplitWS (pyLower question))) (pySplitNL pdfContent) with
  | some i =>
    extractLoop mode (linesNeeded mode marks age)
      (((pySplitNL pdfContent).drop (i - 2)).take (linesNeeded mode marks age + 5)) 0
  | none => []

/-- The `relevant_lines` list after the no-match fallback of `_extract_relevant_content`
(`ai_assistant_remote.py` lines 336-344). -/
def relevantLines (pdfContent question mode : String) (marks age : Option Int) :
    List String :=
  if (collectedLines pdfContent question mode marks age).isEmpty
  then fallbackCollect ((pySplitNL pdfContent).take 50) 0
  else collectedLines pdfContent question mode marks age

/-- The function `_extract_relevant_content(question, mode, marks, age)` from
`ai_assistant_remote.py` lines 265-355, with the object's `pdf_content` made
an explicit first argument. -/
def extractRelevantContent (pdfContent question mode : String)
    (marks age : Option Int) : String :=
  if pdfContent = "" then "No PDF content available."
  else finishContent question (relevantLines pdfContent question mode marks age)

/-- First line of a string (everything before the first newline). -/
def firstLine (s : String) : String :=
  match pySplitNL s with
  | [] => ""
  | l :: _ => l

/-- A page record of the Corpus Store: `{'page_number': ..., 'text': ...}`. -/
structure Page where
  pageNumber : Int
  text : String
deriving DecidableEq

/-- A search result of `search_in_pdf`. -/
structure SearchHit where
  pageNumber : Int
  context : String
  matchPosition : Nat
deriving DecidableEq

/-- The page-lookup loop of `get_expanded_content` (`pdf_processor.py` lines
121-125): `page_content` starts `""` and becomes the text of the first page
whose `page_number` matches. -/
def findPageText (pages : List Page) (pageNumber : Int) : String :=
  match pages.find? (fun p => p.pageNumber == pageNumber) with
  | some p => p.text
  | none => ""

/-- Collection loop of the Expansion Extractor (`pdf_processor.py` lines
170-190): skip blank lines, stop unconditionally at a heading line, append,
then apply the bounded-mode stop and the general-mode stop. -/
def expandLoop (mode : String) (needed : Nat) : List String → Nat → List String
  | [], _ => []
  | line :: rest, count =>
    let cur := pyStrip line
    if cur = "" then expandLoop mode needed rest count
    else if pyIsUpper cur && decide (10 < cur.length) then []
    else if headingPrefixes.any (fun p => p.data.isPrefixOf cur.data) then []
    else
      cur :: (if stopBounded mode needed cur (count + 1) then []
              else if stopGeneral mode cur (count + 1) then []
              else expandLoop mode needed rest (count + 1))

/-- The function `get_expanded_content(page_number, context, mode, marks, age)` from
`pdf_processor.py` lines 115-196, with the object's `pages_content` made an
explicit first argument. -/
def getExpandedContent (pages : List Page) (pageNumber : Int) (context : String)
    (mode : String) (marks age : Option Int) : String :=
  if pageNumber ≤ 0 ∨ (pages.length : Int) < pageNumber then context
  else
    let pageContent := findPageText pages pageNumber
    if pageContent = "" then context
    else
      let contentLines := pySplitNL pageContent
      match findMatchIdx (fun line => pyContains line (pyStrip context)) contentLines with
      | none => context
      | some k =>
        let needed := linesNeeded mode marks age
        let expandedLines :=
          expandLoop mode needed ((contentLines.drop (k + 1)).take (needed + 10)) 0
        if expandedLines.length < 3 then context ++ "\n\n" ++ joinNL expandedLines
        else joinNL expandedLines

/-- Python `s[a:b]` for `0 ≤ a ≤ b` (character slice). -/
def pySlice (s : String) (a b : Nat) : String := ⟨(s.data.take b).drop a⟩

/-- The loop body of `search_in_pdf` (`pdf_processor.py` lines 98-111) for one
page: when the lowercased page text contains the lowercased query, build the
hit whose context is the original-text slice
`[max(0, start-100) : min(len(page_text), start + len(query) + 100)]`. -/
def searchHit? (query : String) (page : Page) : Option SearchHit :=
  match findSub (pyLower query).data (pyLower page.text).data with
  | none => none
  | some startIdx =>
    some ⟨page.pageNumber,
          pySlice page.text (startIdx - 100)
            (min (pyLower page.text).data.length (startIdx + query.length + 100)),
          startIdx⟩

/-- The function `search_in_pdf(query)` from `pdf_processor.py` lines 93-113, with the
object's `pages_content` made an explicit first argument. -/
def searchInPdf (pages : List Page) (query : String) : List SearchHit :=
  pages.filterMap (searchHit? query)

/-- Whether a page produces a search hit: its lowercased text contains the
lowercased query. -/
def searchMatches (query : String) (page : Page) : Bool :=
  (findSub (pyLower query).data (pyLower page.text).data).isSome

/-- The hit produced for a matching page. -/
def searchHitOf (query : String) (page : Page) : SearchHit :=
  match findSub (pyLower query).data (pyLower page.text).data with
  | some startIdx =>
    ⟨page.pageNumber,
     pySlice page.text (startIdx - 100)
       (min (pyLower page.text).data.length (startIdx + query.length + 100)),
     startIdx⟩
  | none => ⟨page.pageNumber, "", 0⟩

/-- No two adjacent newline characters anywhere in the list. -/
def noNN : List Char → Bool
  | c₁ :: c₂ :: rest => !(c₁ == '\n' && c₂ == '\n') && noNN (c₂ :: rest)
  | _ => true

/-- No three consecutive newline characters anywhere in the list; the formal
reading of "contains no run of 3 or more newlines". -/
def noTri : List Char → Bool
  | c₁ :: c₂ :: c₃ :: rest =>
    !(c₁ == '\n' && c₂ == '\n' && c₃ == '\n') && noTri (c₂ :: c₃ :: rest)
  | _ => true

/-- Claim C1: the line-count policy shared by both extractors is a total
function of (mode, marks, age) and agrees with the section 4.1 table at every
input, in particular at every band boundary; examination without marks,
age-appropriate without an age, and an unrecognized or missing mode all give
the default 10. -/
theorem C1_mode_policy (mode : String) (marks age : Option Int) :
    linesNeeded mode marks age = linesNeededSpec mode marks age := by
  unfold linesNeeded linesNeededSpec
  by_cases hex : mode = "examination"
  · subst hex
    cases marks with
    | none => simp [truthyOpt]
    | some m =>
      by_cases hm : m = 0
      · subst hm; simp [truthyOpt, examBand]
      · simp [truthyOpt, hm, examBand]
  · by_cases hag : mode = "age_appropriate"
    · subst hag
      cases age with
      | none => simp [truthyOpt]
      | some a =>
        by_cases ha : a = 0
        · subst ha; simp [truthyOpt, ageBand]
        · simp [truthyOpt, ha, ageBand]
    · simp [hex, hag]

/-! ### Basic bridges between `String` and `List Char` -/

theorem str_eq_iff_data {s t : String} : s = t ↔ s.data = t.data := by
  constructor
  · intro h; rw [h]
  · intro h
    cases s; cases t
    exact congrArg String.mk h

theorem str_ne_empty_iff {s : String} : s ≠ "" ↔ s.data ≠ [] := by
  rw [not_iff_not]
  exact str_eq_iff_data

theorem pyStrip_data (s : String) : (pyStrip s).data = stripChars s.data := rfl

theorem joinNL_data (ls : List String) : (joinNL ls).data = icnl (ls.map String.data) := rfl

/-! ### `splitOnPred` -/

theorem splitOnPred_ne_nil (p : Char → Bool) (l : List Char) : splitOnPred p l ≠ [] := by
  cases l with
  | nil => simp [splitOnPred]
  | cons c rest =>
    unfold splitOnPred
    cases h : splitOnPred p rest with
    | nil => simp
    | cons h' t' =>
      by_cases hp : p c = true <;> simp [hp]

theorem splitOnPred_cons (p : Char → Bool) (c : Char) (rest : List Char) :
    splitOnPred p (c :: rest) =
      (match splitOnPred p rest with
       | [] => [[]]
       | h :: t => if p c then [] :: h :: t else (c :: h) :: t) := rfl

theorem mem_splitOnPred {p : Char → Bool} {l : List Char} {piece : List Char}
    (hmem : piece ∈ splitOnPred p l) : ∀ c ∈ piece, p c = false := by
  induction l generalizing piece with
  | nil =>
    simp only [splitOnPred, List.mem_singleton] at hmem
    subst hmem; intro c hc; cases hc
  | cons c rest ih =>
    rw [splitOnPred_cons] at hmem
    cases h : splitOnPred p rest with
    | nil => exact absurd h (splitOnPred_ne_nil p rest)
    | cons h' t' =>
      rw [h] at hmem
      dsimp only at hmem
      have ih' : ∀ q ∈ h' :: t', ∀ c ∈ q, p c = false := fun q hq => ih (h ▸ hq)
      by_cases hp : p c = true
      · rw [if_pos hp] at hmem
        rcases List.mem_cons.mp hmem with rfl | hmem2
        · intro d hd; cases hd
        · exact ih' piece hmem2
      · rw [if_neg hp] at hmem
        rcases List.mem_cons.mp hmem with rfl | hmem2
        · intro d hd
          rcases List.mem_cons.mp hd with rfl | h2
          · simpa using hp
          · exact ih' h' (List.mem_cons_self h' t') d h2
        · exact ih' piece (List.mem_cons_of_mem h' hmem2)

theorem splitOnPred_of_no_sep {p : Char → Bool} {l : List Char}
    (h : ∀ c ∈ l, p c = false) : splitOnPred p l = [l] := by
  induction l with
  | nil => rfl
  | cons c rest ih =>
    have hrest : splitOnPred p rest = [rest] := ih (fun d hd => h d (List.mem_cons_of_mem c hd))
    unfold splitOnPred
    rw [hrest]
    simp [h c (List.mem_cons_self c rest)]

theorem splitOnPred_append_sep {p : Char → Bool} {a : List Char} {s : Char} {b : List Char}
    (ha : ∀ c ∈ a, p c = false) (hs : p s = true) :
    splitOnPred p (a ++ s :: b) = a :: splitOnPred p b := by
  induction a with
  | nil =>
    show splitOnPred p (s :: b) = [] :: splitOnPred p b
    rw [splitOnPred_cons]
    cases h : splitOnPred p b with
    | nil => exact absurd h (splitOnPred_ne_nil p b)
    | cons h' t' => simp [hs]
  | cons c a' ih =>
    have ha' : ∀ d ∈ a', p d = false := fun d hd => ha d (List.mem_cons_of_mem c hd)
    have heq : splitOnPred p (a' ++ s :: b) = a' :: splitOnPred p b := ih ha'
    show splitOnPred p (c :: (a' ++ s :: b)) = (c :: a') :: splitOnPred p b
    rw [splitOnPred_cons, heq]
    simp [ha c (List.mem_cons_self c a')]

/-! ### `icnl` -/

theorem icnl_ne_nil {pieces : List (List Char)} {q : List Char}
    (hq : q ≠ []) : icnl (q :: pieces) ≠ [] := by
  cases pieces with
  | nil => simpa [icnl] using hq
  | cons r rest =>
    show q ++ '\n' :: icnl (r :: rest) ≠ []
    simp

theorem icnl_head? {q : List Char} (pieces : List (List Char))
    (hq : q ≠ []) : (icnl (q :: pieces)).head? = q.head? := by
  cases pieces with
  | nil => rfl
  | cons r rest =>
    show (q ++ '\n' :: icnl (r :: rest)).head? = q.head?
    exact List.head?_append_of_ne_nil q hq

theorem splitOnNL_icnl {pieces : List (List Char)}
    (hne : pieces ≠ []) (h : ∀ q ∈ pieces, ('\n' : Char) ∉ q) :
    splitOnNL (icnl pieces) = pieces := by
  induction pieces with
  | nil => exact absurd rfl hne
  | cons q rest ih =>
    have hq : ∀ c ∈ q, (c == '\n') = false := by
      intro c hc
      have : c ≠ '\n' := fun hc' => h q (List.mem_cons_self q rest) (hc' ▸ hc)
      simpa using this
    cases rest with
    | nil =>
      show splitOnNL q = [q]
      exact splitOnPred_of_no_sep hq
    | cons r rest' =>
      show splitOnPred (fun c => c == '\n') (q ++ '\n' :: icnl (r :: rest')) = _
      rw [splitOnPred_append_sep hq (by simp)]
      have := ih (by simp) (fun x hx => h x (List.mem_cons_of_mem q hx))
      rw [show splitOnPred (fun c => c == '\n') (icnl (r :: rest')) =
            splitOnNL (icnl (r :: rest')) from rfl, this]

/-! ### `stripChars` -/

theorem head?_dropWhile_false {p : Char → Bool} {l : List Char} {c : Char}
    (h : (l.dropWhile p).head? = some c) : p c = false := by
  induction l with
  | nil => cases h
  | cons a rest ih =>
    by_cases hp : p a = true
    · rw [List.dropWhile_cons, if_pos hp] at h
      exact ih h
    · rw [List.dropWhile_cons, if_neg hp] at h
      cases h
      simpa using hp

theorem dropWhile_of_head_false {p : Char → Bool} {l : List Char}
    (h : ∀ c, l.head? = some c → p c = false) : l.dropWhile p = l := by
  cases l with
  | nil => rfl
  | cons a rest =>
    rw [List.dropWhile_cons, if_neg]
    simp [h a rfl]

theorem stripChars_head? {l : List Char} {c : Char}
    (h : (stripChars l).head? = some c) : c.isWhitespace = false := by
  unfold stripChars at h
  rw [List.head?_reverse] at h
  have hsfx : (l.dropWhile Char.isWhitespace).reverse.dropWhile Char.isWhitespace <:+
      (l.dropWhile Char.isWhitespace).reverse := List.dropWhile_suffix _
  obtain ⟨t, ht⟩ := hsfx
  rcases heq : (l.dropWhile Char.isWhitespace).reverse.dropWhile Char.isWhitespace with _ | ⟨d, ds⟩
  · rw [heq] at h; cases h
  · rw [heq] at h ht
    have : (l.dropWhile Char.isWhitespace).reverse.getLast? = some c := by
      rw [← ht]
      rw [List.getLast?_append_of_ne_nil t (by simp)]
      exact h
    rw [List.getLast?_reverse] at this
    exact head?_dropWhile_false this

theorem stripChars_getLast? {l : List Char} {c : Char}
    (h : (stripChars l).getLast? = some c) : c.isWhitespace = false := by
  unfold stripChars at h
  rw [List.getLast?_reverse] at h
  exact head?_dropWhile_false h

theorem stripChars_of_fixed {l : List Char}
    (hh : ∀ c, l.head? = some c → c.isWhitespace = false)
    (hl : ∀ c, l.getLast? = some c → c.isWhitespace = false) :
    stripChars l = l := by
  unfold stripChars
  rw [dropWhile_of_head_false hh]
  rw [dropWhile_of_head_false (by intro c hc; rw [List.head?_reverse] at hc; exact hl c hc)]
  exact List.reverse_reverse l

theorem stripChars_idem (l : List Char) : stripChars (stripChars l) = stripChars l :=
  stripChars_of_fixed (fun _ h => stripChars_head? h) (fun _ h => stripChars_getLast? h)

theorem stripChars_subset (l : List Char) : stripChars l ⊆ l := by
  intro c hc
  unfold stripChars at hc
  rw [List.mem_reverse] at hc
  have h1 := (List.dropWhile_suffix Char.isWhitespace).subset hc
  rw [List.mem_reverse] at h1
  exact (List.dropWhile_suffix Char.isWhitespace).subset h1

theorem pyStrip_idem (s : String) : pyStrip (pyStrip s) = pyStrip s := by
  apply str_eq_iff_data.mpr
  exact stripChars_idem s.data

/-! ### `noNN` and `noTri` -/

theorem noNN_nil : noNN [] = true := rfl

theorem noNN_single (c : Char) : noNN [c] = true := rfl

theorem noNN_cons₂ (c₁ c₂ : Char) (t : List Char) :
    noNN (c₁ :: c₂ :: t) = (!(c₁ == '\n' && c₂ == '\n') && noNN (c₂ :: t)) := rfl

theorem noNN_tail {c : Char} {l : List Char} (h : noNN (c :: l) = true) : noNN l = true := by
  cases l with
  | nil => rfl
  | cons d t =>
    rw [noNN_cons₂] at h
    exact (Bool.and_eq_true_iff.mp h).2

theorem noNN_cons_ne {c : Char} (hc : c ≠ '\n') (l : List Char) :
    noNN (c :: l) = noNN l := by
  cases l with
  | nil => rfl
  | cons d t =>
    rw [noNN_cons₂]
    have : (c == '\n') = false := by simpa using hc
    simp [this]

theorem noNN_of_no_nl {l : List Char} (h : ('\n' : Char) ∉ l) : noNN l = true := by
  induction l with
  | nil => rfl
  | cons c t ih =>
    rw [noNN_cons_ne (fun hc => h (hc ▸ List.mem_cons_self c t))]
    exact ih (fun hc => h (List.mem_cons_of_mem c hc))

theorem noNN_append_left {p : List Char} (hp : ('\n' : Char) ∉ p) (l : List Char) :
    noNN (p ++ l) = noNN l := by
  induction p with
  | nil => rfl
  | cons c t ih =>
    rw [List.cons_append, noNN_cons_ne (fun hc => hp (hc ▸ List.mem_cons_self c t))]
    exact ih (fun hc => hp (List.mem_cons_of_mem c hc))

theorem noNN_prefix : ∀ {x l : List Char}, x <+: l → noNN l = true → noNN x = true
  | [], _, _, _ => rfl
  | [_], _, _, _ => rfl
  | a :: b :: x', l, hpre, hl => by
    obtain ⟨t, rfl⟩ := hpre
    rw [List.cons_append, List.cons_append, noNN_cons₂] at hl
    obtain ⟨h1, h2⟩ := Bool.and_eq_true_iff.mp hl
    rw [noNN_cons₂, h1, Bool.true_and]
    exact noNN_prefix ⟨t, by simp⟩ h2

theorem noNN_suffix {x l : List Char} (hs : x <:+ l) (hl : noNN l = true) : noNN x = true := by
  obtain ⟨t, rfl⟩ := hs
  induction t with
  | nil => exact hl
  | cons c t' ih => exact ih (noNN_tail hl)

theorem noNN_stripChars {l : List Char} (h : noNN l = true) : noNN (stripChars l) = true := by
  have h1 : noNN (l.dropWhile Char.isWhitespace) = true :=
    noNN_suffix (List.dropWhile_suffix _) h
  have h3 : (l.dropWhile Char.isWhitespace).reverse.dropWhile Char.isWhitespace <:+
      (l.dropWhile Char.isWhitespace).reverse := List.dropWhile_suffix _
  have h2 : stripChars l <+: l.dropWhile Char.isWhitespace := by
    apply List.reverse_suffix.mp
    unfold stripChars
    simpa using h3
  exact noNN_prefix h2 h1

theorem noTri_nil : noTri [] = true := rfl

theorem noTri_cons₃ (c₁ c₂ c₃ : Char) (t : List Char) :
    noTri (c₁ :: c₂ :: c₃ :: t) =
      (!(c₁ == '\n' && c₂ == '\n' && c₃ == '\n') && noTri (c₂ :: c₃ :: t)) := rfl

theorem noTri_short : ∀ {l : List Char}, l.length ≤ 2 → noTri l = true
  | [], _ => rfl
  | [_], _ => rfl
  | [_, _], _ => rfl

theorem noTri_cons_ne {c : Char} (hc : c ≠ '\n') (l : List Char) :
    noTri (c :: l) = noTri l := by
  match l with
  | [] => rfl
  | [_] => rfl
  | d :: e :: t =>
    rw [noTri_cons₃]
    have : (c == '\n') = false := by simpa using hc
    simp [this]

theorem noTri_of_no_nl {l : List Char} (h : ('\n' : Char) ∉ l) : noTri l = true := by
  induction l with
  | nil => rfl
  | cons c t ih =>
    rw [noTri_cons_ne (fun hc => h (hc ▸ List.mem_cons_self c t))]
    exact ih (fun hc => h (List.mem_cons_of_mem c hc))

theorem noTri_append_left {p : List Char} (hp : ('\n' : Char) ∉ p) (l : List Char) :
    noTri (p ++ l) = noTri l := by
  induction p with
  | nil => rfl
  | cons c t ih =>
    rw [List.cons_append, noTri_cons_ne (fun hc => hp (hc ▸ List.mem_cons_self c t))]
    exact ih (fun hc => hp (List.mem_cons_of_mem c hc))

theorem noTri_cons₂_ne {c₁ c₂ : Char} (h₂ : c₂ ≠ '\n') (t : List Char) :
    noTri (c₁ :: c₂ :: t) = noTri (c₂ :: t) := by
  match t with
  | [] => rfl
  | e :: t' =>
    rw [noTri_cons₃]
    have : (c₂ == '\n') = false := by simpa using h₂
    simp [this]

theorem noTri_cons₃_ne {c₁ c₂ c₃ : Char} (h₃ : c₃ ≠ '\n') (t : List Char) :
    noTri (c₁ :: c₂ :: c₃ :: t) = noTri (c₂ :: c₃ :: t) := by
  rw [noTri_cons₃]
  have : (c₃ == '\n') = false := by simpa using h₃
  simp [this]

theorem noTri_append_right : ∀ (q p : List Char), noTri q = true →
    (('\n' : Char) ∉ p) → noTri (q ++ p) = true
  | [], p, _, hp => noTri_of_no_nl hp
  | [a], p, _, hp => by
    by_cases ha : a = '\n'
    · subst ha
      cases p with
      | nil => rfl
      | cons d p' =>
        have hd : d ≠ '\n' := fun h => hp (h ▸ List.mem_cons_self d p')
        show noTri ('\n' :: d :: p') = true
        rw [noTri_cons₂_ne hd, noTri_cons_ne hd]
        exact noTri_of_no_nl (fun h => hp (List.mem_cons_of_mem d h))
    · show noTri (a :: p) = true
      rw [noTri_cons_ne ha]
      exact noTri_of_no_nl hp
  | [a, b], p, _, hp => by
    cases p with
    | nil => rfl
    | cons d p' =>
      have hd : d ≠ '\n' := fun h => hp (h ▸ List.mem_cons_self d p')
      show noTri (a :: b :: d :: p') = true
      rw [noTri_cons₃_ne hd, noTri_cons₂_ne hd, noTri_cons_ne hd]
      exact noTri_of_no_nl (fun h => hp (List.mem_cons_of_mem d h))
  | a :: b :: c :: q', p, hq, hp => by
    rw [noTri_cons₃] at hq
    obtain ⟨h1, h2⟩ := Bool.and_eq_true_iff.mp hq
    show noTri (a :: b :: c :: (q' ++ p)) = true
    rw [noTri_cons₃, h1, Bool.true_and]
    exact noTri_append_right (b :: c :: q') p h2 hp

theorem noTri_of_noNN : ∀ {l : List Char}, noNN l = true → noTri l = true
  | [], _ => rfl
  | [_], _ => rfl
  | [_, _], _ => rfl
  | a :: b :: c :: t, h => by
    rw [noNN_cons₂] at h
    obtain ⟨h1, h2⟩ := Bool.and_eq_true_iff.mp h
    rw [noTri_cons₃]
    have h1' : (a == '\n' && b == '\n') = false := by
      rcases Bool.eq_false_or_eq_true (a == '\n' && b == '\n') with h' | h'
      · rw [h'] at h1; cases h1
      · exact h'
    have hcond : (a == '\n' && b == '\n' && c == '\n') = false := by
      cases ha : (a == '\n') with
      | false => simp [ha]
      | true =>
        cases hb : (b == '\n') with
        | false => simp [ha, hb]
        | true => rw [ha, hb] at h1'; simp at h1'
    rw [hcond]
    simpa using noTri_of_noNN h2

/-! ### `replace3n` -/

theorem replace3n_short : ∀ {l : List Char}, l.length ≤ 2 → replace3n l = l
  | [], _ => rfl
  | [_], _ => rfl
  | [_, _], _ => rfl

theorem replace3n_of_noNN : ∀ {l : List Char}, noNN l = true → replace3n l = l
  | [], _ => rfl
  | [_], _ => rfl
  | [_, _], _ => rfl
  | a :: b :: c :: t, h => by
    rw [noNN_cons₂] at h
    obtain ⟨h1, h2⟩ := Bool.and_eq_true_iff.mp h
    have hne : ¬(a = '\n' ∧ b = '\n' ∧ c = '\n') := by
      intro ⟨ha, hb, _⟩
      subst ha; subst hb
      simp at h1
    show replace3n (a :: b :: c :: t) = a :: b :: c :: t
    unfold replace3n
    rw [if_neg hne]
    rw [replace3n_of_noNN h2]

/-! ### Joined content -/

/-- A collected line: non-empty, strip-fixed, and newline-free. -/
def goodLine (l : String) : Prop :=
  l ≠ "" ∧ pyStrip l = l ∧ ('\n' : Char) ∉ l.data

theorem goodLine_pyStrip {s : String} (hnl : ('\n' : Char) ∉ s.data)
    (hne : pyStrip s ≠ "") : goodLine (pyStrip s) :=
  ⟨hne, pyStrip_idem s, fun hmem => hnl (stripChars_subset s.data hmem)⟩

theorem icnl_noNN {pieces : List (List Char)} (hne : pieces ≠ [])
    (h : ∀ q ∈ pieces, q ≠ [] ∧ ('\n' : Char) ∉ q) : noNN (icnl pieces) = true := by
  induction pieces with
  | nil => exact absurd rfl hne
  | cons q rest ih =>
    obtain ⟨hq1, hq2⟩ := h q (List.mem_cons_self q rest)
    cases rest with
    | nil => exact noNN_of_no_nl hq2
    | cons r rest' =>
      show noNN (q ++ '\n' :: icnl (r :: rest')) = true
      rw [noNN_append_left hq2]
      obtain ⟨hr1, hr2⟩ := h r (List.mem_cons_of_mem q (List.mem_cons_self r rest'))
      have hrec : noNN (icnl (r :: rest')) = true :=
        ih (by simp) (fun x hx => h x (List.mem_cons_of_mem q hx))
      rcases hicnl : icnl (r :: rest') with _ | ⟨d, ds⟩
      · exact absurd hicnl (icnl_ne_nil hr1)
      · have hd : d ≠ '\n' := by
          have hh := icnl_head? rest' hr1
          rw [hicnl] at hh
          cases r with
          | nil => exact absurd rfl hr1
          | cons e es =>
            have hde : d = e := by simpa using hh
            subst hde
            exact fun hc => hr2 (hc ▸ List.mem_cons_self d es)
        rw [noNN_cons₂]
        have h1 : (('\n' : Char) == '\n' && d == '\n') = false := by simp [hd]
        rw [h1]
        rw [hicnl] at hrec
        simpa using hrec

theorem icnl_getLast? : ∀ (pieces : List (List Char)), pieces ≠ [] →
    (∀ p ∈ pieces, p ≠ []) → ∃ r ∈ pieces, (icnl pieces).getLast? = r.getLast?
  | [], hne, _ => absurd rfl hne
  | [q], _, _ => ⟨q, List.mem_cons_self q [], rfl⟩
  | q :: r :: rest, _, h => by
    have hr : r ≠ [] := h r (List.mem_cons_of_mem q (List.mem_cons_self r rest))
    obtain ⟨x, hx, hlast⟩ := icnl_getLast? (r :: rest) (by simp)
      (fun p hp => h p (List.mem_cons_of_mem q hp))
    refine ⟨x, List.mem_cons_of_mem q hx, ?_⟩
    show (q ++ '\n' :: icnl (r :: rest)).getLast? = x.getLast?
    rw [List.getLast?_append_of_ne_nil q (by simp)]
    have hicnl_ne : icnl (r :: rest) ≠ [] := icnl_ne_nil hr
    rw [show ('\n' :: icnl (r :: rest)) = ['\n'] ++ icnl (r :: rest) from rfl]
    rw [List.getLast?_append_of_ne_nil ['\n'] hicnl_ne]
    exact hlast

theorem joinNL_good {ls : List String} (hne : ls ≠ []) (h : ∀ l ∈ ls, goodLine l) :
    noNN (joinNL ls).data = true ∧ pyStrip (joinNL ls) = joinNL ls ∧ joinNL ls ≠ "" ∧
      pySplitNL (joinNL ls) = ls := by
  have hpieces : ∀ q ∈ ls.map String.data, q ≠ [] ∧ ('\n' : Char) ∉ q := by
    intro q hq
    obtain ⟨l, hl, rfl⟩ := List.mem_map.mp hq
    obtain ⟨h1, _, h3⟩ := h l hl
    exact ⟨str_ne_empty_iff.mp h1, h3⟩
  have hne' : ls.map String.data ≠ [] := by
    intro hc
    exact hne (List.map_eq_nil_iff.mp hc)
  have hnn : noNN (joinNL ls).data = true := by
    rw [joinNL_data]
    exact icnl_noNN hne' hpieces
  have hstrip : pyStrip (joinNL ls) = joinNL ls := by
    apply str_eq_iff_data.mpr
    rw [pyStrip_data, joinNL_data]
    apply stripChars_of_fixed
    · intro c hc
      cases ls with
      | nil => exact absurd rfl hne
      | cons l rest =>
        have hl := h l (List.mem_cons_self l rest)
        have hl1 : l.data ≠ [] := str_ne_empty_iff.mp hl.1
        rw [show (l :: rest).map String.data = l.data :: rest.map String.data from rfl] at hc
        rw [icnl_head? _ hl1] at hc
        have : l.data = stripChars l.data := (congrArg String.data hl.2.1).symm
        rw [this] at hc
        exact stripChars_head? hc
    · intro c hc
      obtain ⟨r, hr, hlast⟩ := icnl_getLast? _ hne' (fun p hp => (hpieces p hp).1)
      rw [hlast] at hc
      obtain ⟨l, hl, rfl⟩ := List.mem_map.mp hr
      have : l.data = stripChars l.data := (congrArg String.data (h l hl).2.1).symm
      rw [this] at hc
      exact stripChars_getLast? hc
  have hjne : joinNL ls ≠ "" := by
    apply str_ne_empty_iff.mpr
    rw [joinNL_data]
    cases ls with
    | nil => exact absurd rfl hne
    | cons l rest =>
      exact icnl_ne_nil (str_ne_empty_iff.mp (h l (List.mem_cons_self l rest)).1)
  have hsplit : pySplitNL (joinNL ls) = ls := by
    unfold pySplitNL
    rw [joinNL_data]
    rw [splitOnNL_icnl hne' (fun q hq => (hpieces q hq).2)]
    rw [List.map_map]
    have : ((fun l => (⟨l⟩ : String)) ∘ String.data) = id := by
      funext s; rfl
    rw [this, List.map_id]
  exact ⟨hnn, hstrip, hjne, hsplit⟩

theorem finishContent_good {q : String} {ls : List String} (hne : ls ≠ [])
    (h : ∀ l ∈ ls, goodLine l) : finishContent q ls = joinNL ls := by
  obtain ⟨hnn, hstrip, hjne, _⟩ := joinNL_good hne h
  show (if pyStrip (⟨replace3n (joinNL ls).data⟩ : String) = ""
        then pointerMessage q else pyStrip (⟨replace3n (joinNL ls).data⟩ : String)) = joinNL ls
  have h1 : (⟨replace3n (joinNL ls).data⟩ : String) = joinNL ls := by
    apply str_eq_iff_data.mpr
    show replace3n (joinNL ls).data = (joinNL ls).data
    exact replace3n_of_noNN hnn
  rw [h1, hstrip, if_neg hjne]

/-! ### Search-loop index lemmas -/

theorem findMatchIdx_none {α : Type} {pred : α → Bool} {ls : List α}
    (h : ∀ x ∈ ls, pred x = false) : findMatchIdx pred ls = none := by
  induction ls with
  | nil => rfl
  | cons x rest ih =>
    unfold findMatchIdx
    rw [if_neg (by simp [h x (List.mem_cons_self x rest)])]
    rw [ih (fun y hy => h y (List.mem_cons_of_mem x hy))]
    rfl

theorem findMatchIdx_some_lt {α : Type} {pred : α → Bool} :
    ∀ {ls : List α} {i : Nat}, findMatchIdx pred ls = some i → i < ls.length := by
  intro ls
  induction ls with
  | nil => intro i h; cases h
  | cons x rest ih =>
    intro i h
    unfold findMatchIdx at h
    by_cases hp : pred x = true
    · rw [if_pos hp] at h
      cases h
      simp
    · rw [if_neg hp] at h
      rcases hrec : findMatchIdx pred rest with _ | j
      · rw [hrec] at h; cases h
      · rw [hrec] at h
        cases h
        have := ih hrec
        simp only [List.length_cons]
        omega

/-! ### Elements produced by the collection loops -/

theorem extractLoop_cons_eq (mode : String) (needed : Nat) (line : String)
    (rest : List String) (count : Nat) :
    extractLoop mode needed (line :: rest) count =
      (if pyStrip line = "" then extractLoop mode needed rest count
       else if isHeading (pyStrip line) && decide (3 < count) then []
       else pyStrip line ::
         (if stopGeneral mode (pyStrip line) (count + 1) ||
             stopBounded mode needed (pyStrip line) (count + 1)
          then [] else extractLoop mode needed rest (count + 1))) := rfl

theorem extractLoop_mem {mode : String} {needed : Nat} : ∀ {ls : List String},
    ∀ {cnt : Nat} {l : String},
    l ∈ extractLoop mode needed ls cnt → ∃ o ∈ ls, l = pyStrip o ∧ l ≠ "" := by
  intro ls
  induction ls with
  | nil => intro cnt l h; cases h
  | cons line rest ih =>
    intro cnt l h
    rw [extractLoop_cons_eq] at h
    by_cases h1 : pyStrip line = ""
    · rw [if_pos h1] at h
      obtain ⟨o, ho, h2⟩ := ih h
      exact ⟨o, List.mem_cons_of_mem line ho, h2⟩
    · rw [if_neg h1] at h
      by_cases h2 : (isHeading (pyStrip line) && decide (3 < cnt)) = true
      · rw [if_pos h2] at h; cases h
      · rw [if_neg h2] at h
        rcases List.mem_cons.mp h with rfl | h3
        · exact ⟨line, List.mem_cons_self line rest, rfl, h1⟩
        · by_cases h4 : (stopGeneral mode (pyStrip line) (cnt + 1) ||
              stopBounded mode needed (pyStrip line) (cnt + 1)) = true
          · rw [if_pos h4] at h3; cases h3
          · rw [if_neg h4] at h3
            obtain ⟨o, ho, h5⟩ := ih h3
            exact ⟨o, List.mem_cons_of_mem line ho, h5⟩

theorem expandLoop_cons_eq (mode : String) (needed : Nat) (line : String)
    (rest : List String) (count : Nat) :
    expandLoop mode needed (line :: rest) count =
      (if pyStrip line = "" then expandLoop mode needed rest count
       else if pyIsUpper (pyStrip line) && decide (10 < (pyStrip line).length) then []
       else if headingPrefixes.any (fun p => p.data.isPrefixOf (pyStrip line).data) then []
       else pyStrip line ::
         (if stopBounded mode needed (pyStrip line) (count + 1) then []
          else if stopGeneral mode (pyStrip line) (count + 1) then []
          else expandLoop mode needed rest (count + 1))) := rfl

theorem expandLoop_mem {mode : String} {needed : Nat} : ∀ {ls : List String},
    ∀ {cnt : Nat} {l : String},
    l ∈ expandLoop mode needed ls cnt → ∃ o ∈ ls, l = pyStrip o ∧ l ≠ "" := by
  intro ls
  induction ls with
  | nil => intro cnt l h; cases h
  | cons line rest ih =>
    intro cnt l h
    rw [expandLoop_cons_eq] at h
    by_cases h1 : pyStrip line = ""
    · rw [if_pos h1] at h
      obtain ⟨o, ho, h2⟩ := ih h
      exact ⟨o, List.mem_cons_of_mem line ho, h2⟩
    · rw [if_neg h1] at h
      by_cases h2 : (pyIsUpper (pyStrip line) && decide (10 < (pyStrip line).length)) = true
      · rw [if_pos h2] at h; cases h
      · rw [if_neg h2] at h
        by_cases h3 : (headingPrefixes.any
            (fun p => p.data.isPrefixOf (pyStrip line).data)) = true
        · rw [if_pos h3] at h; cases h
        · rw [if_neg h3] at h
          rcases List.mem_cons.mp h with rfl | h4
          · exact ⟨line, List.mem_cons_self line rest, rfl, h1⟩
          · by_cases h5 : stopBounded mode needed (pyStrip line) (cnt + 1) = true
            · rw [if_pos h5] at h4; cases h4
            · rw [if_neg h5] at h4
              by_cases h6 : stopGeneral mode (pyStrip line) (cnt + 1) = true
              · rw [if_pos h6] at h4; cases h4
              · rw [if_neg h6] at h4
                obtain ⟨o, ho, h7⟩ := ih h4
                exact ⟨o, List.mem_cons_of_mem line ho, h7⟩

theorem fallbackCollect_cons_eq (line : String) (rest : List String) (count : Nat) :
    fallbackCollect (line :: rest) count =
      (if pyStrip line ≠ "" ∧ 20 < (pyStrip line).length then
        pyStrip line :: (if 8 ≤ count + 1 then [] else fallbackCollect rest (count + 1))
       else fallbackCollect rest count) := rfl

theorem fallbackCollect_mem : ∀ {ls : List String} {cnt : Nat} {l : String},
    l ∈ fallbackCollect ls cnt → ∃ o ∈ ls, l = pyStrip o ∧ l ≠ "" ∧ 20 < l.length := by
  intro ls
  induction ls with
  | nil => intro cnt l h; cases h
  | cons line rest ih =>
    intro cnt l h
    rw [fallbackCollect_cons_eq] at h
    by_cases h1 : pyStrip line ≠ "" ∧ 20 < (pyStrip line).length
    · rw [if_pos h1] at h
      rcases List.mem_cons.mp h with rfl | h2
      · exact ⟨line, List.mem_cons_self line rest, rfl, h1.1, h1.2⟩
      · by_cases h3 : 8 ≤ cnt + 1
        · rw [if_pos h3] at h2; cases h2
        · rw [if_neg h3] at h2
          obtain ⟨o, ho, h4⟩ := ih h2
          exact ⟨o, List.mem_cons_of_mem line ho, h4⟩
    · rw [if_neg h1] at h
      obtain ⟨o, ho, h2⟩ := ih h
      exact ⟨o, List.mem_cons_of_mem line ho, h2⟩

theorem fallbackCollect_length : ∀ (ls : List String) (cnt : Nat), cnt < 8 →
    (fallbackCollect ls cnt).length + cnt ≤ 8 := by
  intro ls
  induction ls with
  | nil =>
    intro cnt h
    show (List.length [] + cnt ≤ 8)
    simpa using Nat.le_of_lt h
  | cons line rest ih =>
    intro cnt h
    rw [fallbackCollect_cons_eq]
    by_cases h1 : pyStrip line ≠ "" ∧ 20 < (pyStrip line).length
    · rw [if_pos h1]
      by_cases h2 : 8 ≤ cnt + 1
      · rw [if_pos h2]
        simp only [List.length_cons, List.length_nil]
        omega
      · rw [if_neg h2]
        have := ih (cnt + 1) (by omega)
        simp only [List.length_cons]
        omega
    · rw [if_neg h1]
      exact ih cnt h

/-! ### Corpus lines and matching -/

theorem pySplitNL_no_nl {s : String} {o : String} (h : o ∈ pySplitNL s) :
    ('\n' : Char) ∉ o.data := by
  unfold pySplitNL at h
  obtain ⟨piece, hp, rfl⟩ := List.mem_map.mp h
  intro hc
  have := mem_splitOnPred hp '\n' hc
  simp at this

theorem lineMatches_eq_false {words : List String} {line : String}
    (h : ∀ w ∈ words, 3 < w.length → pyContains (pyLower line) w = false) :
    lineMatches words line = false := by
  unfold lineMatches
  rw [List.any_eq_false]
  intro w hw
  by_cases h3 : 3 < w.length
  · simp [h3, h w hw h3]
  · simp [h3]

theorem goodLines_collected {pdfContent question mode : String} {marks age : Option Int} :
    ∀ l ∈ collectedLines pdfContent question mode marks age, goodLine l := by
  intro l hl
  unfold collectedLines at hl
  rcases hidx : findMatchIdx (lineMatches (pySplitWS (pyLower question)))
      (pySplitNL pdfContent) with _ | i
  · rw [hidx] at hl; cases hl
  · rw [hidx] at hl
    obtain ⟨o, ho, rfl, hne⟩ := extractLoop_mem hl
    have ho' : o ∈ pySplitNL pdfContent :=
      List.drop_subset _ _ (List.take_subset _ _ ho)
    exact goodLine_pyStrip (pySplitNL_no_nl ho') hne

theorem goodLines_relevant {pdfContent question mode : String} {marks age : Option Int} :
    ∀ l ∈ relevantLines pdfContent question mode marks age, goodLine l := by
  intro l hl
  unfold relevantLines at hl
  by_cases hc : (collectedLines pdfContent question mode marks age).isEmpty = true
  · rw [if_pos hc] at hl
    obtain ⟨o, ho, rfl, hne, _⟩ := fallbackCollect_mem hl
    exact goodLine_pyStrip (pySplitNL_no_nl (List.take_subset _ _ ho)) hne
  · rw [if_neg hc] at hl
    exact goodLines_collected l hl

theorem finishContent_nil (question : String) :
    finishContent question [] = pointerMessage question := rfl

theorem pointerMessage_noTri {question : String} (hq : noTri question.data = true) :
    noTri (pointerMessage question).data = true := by
  have hdata : (pointerMessage question).data =
      pointerPre.data ++ (question.data ++ pointerPost.data) := by
    show (pointerPre ++ question ++ pointerPost).data = _
    rw [show (pointerPre ++ question ++ pointerPost).data =
      pointerPre.data ++ question.data ++ pointerPost.data from rfl]
    rw [List.append_assoc]
  rw [hdata]
  rw [noTri_append_left (by decide)]
  exact noTri_append_right question.data pointerPost.data hq (by decide)

theorem finishContent_noTri (question : String) (ls : List String)
    (hq : noTri question.data = true) (hgood : ∀ l ∈ ls, goodLine l) :
    noTri (finishContent question ls).data = true := by
  cases ls with
  | nil =>
    rw [finishContent_nil]
    exact pointerMessage_noTri hq
  | cons l0 rest =>
    rw [finishContent_good (by simp) hgood]
    obtain ⟨hnn, _, _, _⟩ := joinNL_good (by simp) hgood
    exact noTri_of_noNN hnn

/-- Claim C7 (corrected): on an empty corpus `_extract_relevant_content`
returns the literal no-content message `"No PDF content available."` from the
up-front emptiness guard, for every question, mode and parameters; no
exception is raised (the function is total). -/
theorem C7_empty_corpus (question mode : String) (marks age : Option Int) :
    extractRelevantContent "" question mode marks age = "No PDF content available." := by
  unfold extractRelevantContent
  rw [if_pos rfl]

/-- Claim C7 counterexample: on the empty corpus the extractor does not return
the pointer message naming the query; it returns `"No PDF content available."`,
which differs from the pointer message and does not contain the query. -/
theorem C7_counterexample :
    extractRelevantContent "" "photosynthesis" "general" none none =
        "No PDF content available." ∧
      "No PDF content available." ≠ pointerMessage "photosynthesis" ∧
      pyContains "No PDF content available." "photosynthesis" = false := by
  refine ⟨by decide, by decide, by decide⟩

/-- Claim C8 (corrected): if the query itself contains no run of 3 or more
newline characters, then neither does the string returned by
`_extract_relevant_content`, for every corpus, mode and parameters. -/
theorem C8_no_triple_newline (pdfContent question mode : String) (marks age : Option Int)
    (hq : noTri question.data = true) :
    noTri (extractRelevantContent pdfContent question mode marks age).data = true := by
  unfold extractRelevantContent
  by_cases hpdf : pdfContent = ""
  · rw [if_pos hpdf]; decide
  · rw [if_neg hpdf]
    exact finishContent_noTri question _ hq goodLines_relevant

/-- Claim C8 witness: the theorem applied at a concrete input. -/
theorem C8_witness :
    noTri (extractRelevantContent "abc" "hello" "general" none none).data = true :=
  C8_no_triple_newline "abc" "hello" "general" none none (by decide)

/-- Claim C8 counterexample: for a query containing a run of 3 newlines and a
corpus whose fallback collects nothing, the returned pointer message embeds
the query verbatim and therefore contains 3 consecutive newlines. -/
theorem C8_counterexample :
    noTri (extractRelevantContent "short" "a\n\n\nb" "general" none none).data = false := by
  decide

/-- Claim C2 (corrected): if no corpus line contains (case-insensitively) any
query word of length greater than 3, the extractor returns the no-content
message, or the pointer message, or at most 8 lines, each non-blank, longer
than 20 characters, and equal to the trimmed form of one of the first 50
corpus lines. -/
theorem C2_no_match_fallback (pdfContent question mode : String) (marks age : Option Int)
    (hnom : ∀ line ∈ pySplitNL pdfContent, ∀ w ∈ pySplitWS (pyLower question),
      3 < w.length → pyContains (pyLower line) w = false) :
    extractRelevantContent pdfContent question mode marks age = "No PDF content available." ∨
    extractRelevantContent pdfContent question mode marks age = pointerMessage question ∨
    ((pySplitNL (extractRelevantContent pdfContent question mode marks age)).length ≤ 8 ∧
      ∀ l ∈ pySplitNL (extractRelevantContent pdfContent question mode marks age),
        l ≠ "" ∧ 20 < l.length ∧ l ∈ ((pySplitNL pdfContent).take 50).map pyStrip) := by
  by_cases hpdf : pdfContent = ""
  · left
    unfold extractRelevantContent
    rw [if_pos hpdf]
  · have hmatch : findMatchIdx (lineMatches (pySplitWS (pyLower question)))
        (pySplitNL pdfContent) = none :=
      findMatchIdx_none (fun line hline => lineMatches_eq_false (hnom line hline))
    have hcoll : collectedLines pdfContent question mode marks age = [] := by
      unfold collectedLines
      rw [hmatch]
    have hrel : relevantLines pdfContent question mode marks age =
        fallbackCollect ((pySplitNL pdfContent).take 50) 0 := by
      unfold relevantLines
      rw [hcoll]
      rfl
    have hout : extractRelevantContent pdfContent question mode marks age =
        finishContent question (fallbackCollect ((pySplitNL pdfContent).take 50) 0) := by
      unfold extractRelevantContent
      rw [if_neg hpdf, hrel]
    rcases hfb : fallbackCollect ((pySplitNL pdfContent).take 50) 0 with _ | ⟨f, fs⟩
    · right; left
      rw [hout, hfb, finishContent_nil]
    · right; right
      have hgoodfb : ∀ l ∈ fallbackCollect ((pySplitNL pdfContent).take 50) 0,
          goodLine l := by
        intro l hl
        obtain ⟨o, ho, rfl, hne, _⟩ := fallbackCollect_mem hl
        exact goodLine_pyStrip (pySplitNL_no_nl (List.take_subset _ _ ho)) hne
      have hout2 : extractRelevantContent pdfContent question mode marks age =
          joinNL (fallbackCollect ((pySplitNL pdfContent).take 50) 0) := by
        rw [hout]
        exact finishContent_good (by rw [hfb]; simp) hgoodfb
      obtain ⟨_, _, _, hsplit⟩ := joinNL_good (by rw [hfb]; simp) hgoodfb
      rw [hout2, hsplit]
      constructor
      · have := fallbackCollect_length ((pySplitNL pdfContent).take 50) 0 (by omega)
        omega
      · intro l hl
        obtain ⟨o, ho, rfl, hne, hlen⟩ := fallbackCollect_mem hl
        exact ⟨hne, hlen, List.mem_map.mpr ⟨o, ho, rfl⟩⟩

/-- Claim C2 witness: the theorem applied at a concrete input whose query has
no significant word, so the fallback path fires. -/
theorem C2_witness :
    extractRelevantContent "This is a long introduction line here.\nshort" "zzz"
        "general" none none = "No PDF content available." ∨
    extractRelevantContent "This is a long introduction line here.\nshort" "zzz"
        "general" none none = pointerMessage "zzz" ∨
    ((pySplitNL (extractRelevantContent "This is a long introduction line here.\nshort"
        "zzz" "general" none none)).length ≤ 8 ∧
      ∀ l ∈ pySplitNL (extractRelevantContent "This is a long introduction line here.\nshort"
        "zzz" "general" none none),
        l ≠ "" ∧ 20 < l.length ∧
          l ∈ ((pySplitNL "This is a long introduction line here.\nshort").take 50).map
            pyStrip) :=
  C2_no_match_fallback "This is a long introduction line here.\nshort" "zzz"
    "general" none none (by decide)

/-- Claim C2 counterexample: the claim as stated (with the threshold
"length > 4") is false: the query `"tree"` has no word of length greater
than 4, yet its 4-letter word matches a corpus line, so the extractor returns
that single 10-character matched line rather than fallback lines longer than
20 characters. -/
theorem C2_counterexample :
    ((pySplitWS (pyLower "tree")).all (fun w => decide (w.length ≤ 4)) = true) ∧
      extractRelevantContent "xx tree yy" "tree" "general" none none = "xx tree yy" ∧
      "xx tree yy".length ≤ 20 := by
  refine ⟨by decide, by decide, by decide⟩

theorem extractLoop_head (mode : String) (needed : Nat) (line : String) (rest : List String)
    (h : pyStrip line ≠ "") :
    ∃ t, extractLoop mode needed (line :: rest) 0 = pyStrip line :: t := by
  rw [extractLoop_cons_eq, if_neg h]
  have hcond : (isHeading (pyStrip line) && decide (3 < 0)) = false := by simp
  rw [hcond]
  simp only [Bool.false_eq_true, if_false]
  exact ⟨_, rfl⟩

/-- Claim C3 (corrected): when the first line matching a significant query
word sits at index `i`, then: if `i ≥ 2` and the corpus line at index `i-2`
is non-blank, the first line of the returned excerpt is the trimmed corpus
line at index `i-2`; and if `i < 2`, the collection window starts at corpus
index 0 (no negative indexing, no error). -/
theorem C3_context_window (pdfContent question mode : String) (marks age : Option Int)
    (i : Nat) (hpdf : pdfContent ≠ "")
    (hmatch : findMatchIdx (lineMatches (pySplitWS (pyLower question)))
      (pySplitNL pdfContent) = some i) :
    (2 ≤ i → pyStrip ((pySplitNL pdfContent).getD (i - 2) "") ≠ "" →
      firstLine (extractRelevantContent pdfContent question mode marks age) =
        pyStrip ((pySplitNL pdfContent).getD (i - 2) "")) ∧
    (i < 2 →
      collectedLines pdfContent question mode marks age =
        extractLoop mode (linesNeeded mode marks age)
          ((pySplitNL pdfContent).take (linesNeeded mode marks age + 5)) 0) := by
  constructor
  · intro _ hns
    have hlen : i < (pySplitNL pdfContent).length := findMatchIdx_some_lt hmatch
    have hlt : i - 2 < (pySplitNL pdfContent).length :=
      lt_of_le_of_lt (Nat.sub_le i 2) hlen
    have hgetD : (pySplitNL pdfContent).getD (i - 2) "" = (pySplitNL pdfContent)[i - 2] :=
      List.getD_eq_getElem _ _ hlt
    have hdrop : (pySplitNL pdfContent).drop (i - 2) =
        (pySplitNL pdfContent)[i - 2] :: (pySplitNL pdfContent).drop (i - 2 + 1) :=
      List.drop_eq_getElem_cons hlt
    have hwin : ((pySplitNL pdfContent).drop (i - 2)).take (linesNeeded mode marks age + 5) =
        (pySplitNL pdfContent)[i - 2] ::
          ((pySplitNL pdfContent).drop (i - 2 + 1)).take (linesNeeded mode marks age + 4) := by
      rw [hdrop]
      exact List.take_succ_cons
    have hcoll0 : collectedLines pdfContent question mode marks age =
        extractLoop mode (linesNeeded mode marks age)
          (((pySplitNL pdfContent).drop (i - 2)).take (linesNeeded mode marks age + 5)) 0 := by
      unfold collectedLines
      rw [hmatch]
    rw [hgetD] at hns
    obtain ⟨t, hhead⟩ := extractLoop_head mode (linesNeeded mode marks age)
      ((pySplitNL pdfContent)[i - 2])
      (((pySplitNL pdfContent).drop (i - 2 + 1)).take (linesNeeded mode marks age + 4)) hns
    have hcons : collectedLines pdfContent question mode marks age =
        pyStrip ((pySplitNL pdfContent)[i - 2]) :: t := by
      rw [hcoll0, hwin, hhead]
    have hgood : ∀ l ∈ pyStrip ((pySplitNL pdfContent)[i - 2]) :: t, goodLine l := by
      rw [← hcons]
      exact goodLines_collected
    have hrel : relevantLines pdfContent question mode marks age =
        pyStrip ((pySplitNL pdfContent)[i - 2]) :: t := by
      unfold relevantLines
      rw [hcons]
      rw [if_neg (by simp)]
    have hout : extractRelevantContent pdfContent question mode marks age =
        joinNL (pyStrip ((pySplitNL pdfContent)[i - 2]) :: t) := by
      unfold extractRelevantContent
      rw [if_neg hpdf, hrel]
      exact finishContent_good (by simp) hgood
    obtain ⟨_, _, _, hsplit⟩ := joinNL_good (by simp) hgood
    rw [hout]
    unfold firstLine
    rw [hsplit, hgetD]
  · intro hlt2
    have hcoll0 : collectedLines pdfContent question mode marks age =
        extractLoop mode (linesNeeded mode marks age)
          (((pySplitNL pdfContent).drop (i - 2)).take (linesNeeded mode marks age + 5)) 0 := by
      unfold collectedLines
      rw [hmatch]
    rw [hcoll0]
    have h0 : i - 2 = 0 := by omega
    rw [h0, List.drop_zero]

/-- Claim C3 witness: the theorem applied at a concrete corpus whose first
match is at index 2 with a non-blank line at index 0. -/
theorem C3_witness :
    firstLine (extractRelevantContent "intro line\n\nphotosynthesis is life."
        "photosynthesis" "general" none none) =
      pyStrip ((pySplitNL "intro line\n\nphotosynthesis is life.").getD 0 "") :=
  (C3_context_window "intro line\n\nphotosynthesis is life." "photosynthesis" "general"
      none none 2 (by decide) (by decide)).1 (by decide) (by decide)

/-- Claim C3 counterexample: the claim as stated is false: with the first
match at index 2 and a corpus line at index 0 carrying surrounding
whitespace, the excerpt's first line is the trimmed line, which differs from
the corpus line at index `i - 2`. -/
theorem C3_counterexample :
    findMatchIdx (lineMatches (pySplitWS (pyLower "photosynthesis")))
        (pySplitNL "  alpha  \nx\nphotosynthesis stuff") = some 2 ∧
      firstLine (extractRelevantContent "  alpha  \nx\nphotosynthesis stuff"
          "photosynthesis" "general" none none) ≠
        (pySplitNL "  alpha  \nx\nphotosynthesis stuff").getD 0 "" := by
  refine ⟨by decide, by decide⟩

/-! ### Expansion extractor -/

theorem getExpandedContent_found (pages : List Page) (pageNumber : Int) (anchor mode : String)
    (marks age : Option Int) (k : Nat)
    (hval : ¬(pageNumber ≤ 0 ∨ (pages.length : Int) < pageNumber))
    (hne : findPageText pages pageNumber ≠ "")
    (hk : findMatchIdx (fun line => pyContains line (pyStrip anchor))
      (pySplitNL (findPageText pages pageNumber)) = some k) :
    getExpandedContent pages pageNumber anchor mode marks age =
      (if (expandLoop mode (linesNeeded mode marks age)
            (((pySplitNL (findPageText pages pageNumber)).drop (k + 1)).take
              (linesNeeded mode marks age + 10)) 0).length < 3
       then anchor ++ "\n\n" ++ joinNL (expandLoop mode (linesNeeded mode marks age)
            (((pySplitNL (findPageText pages pageNumber)).drop (k + 1)).take
              (linesNeeded mode marks age + 10)) 0)
       else joinNL (expandLoop mode (linesNeeded mode marks age)
            (((pySplitNL (findPageText pages pageNumber)).drop (k + 1)).take
              (linesNeeded mode marks age + 10)) 0)) := by
  unfold getExpandedContent
  rw [if_neg hval]
  dsimp only
  rw [if_neg hne, hk]

/-- Claim C5 (confirmed): for a valid page whose line sequence contains the
anchor first at index `k`, the expansion collects only trimmed lines drawn
from indices strictly greater than `k`; when at least 3 lines are collected
it returns their join, and when fewer than 3 are collected it returns the
anchor, a blank line, and the partial collection. -/
theorem C5_expansion_below_anchor (pages : List Page) (pageNumber : Int)
    (anchor mode : String) (marks age : Option Int) (k : Nat)
    (hpos : 0 < pageNumber) (hle : pageNumber ≤ (pages.length : Int))
    (hne : findPageText pages pageNumber ≠ "")
    (hk : findMatchIdx (fun line => pyContains line (pyStrip anchor))
      (pySplitNL (findPageText pages pageNumber)) = some k) :
    (∀ l ∈ expandLoop mode (linesNeeded mode marks age)
        (((pySplitNL (findPageText pages pageNumber)).drop (k + 1)).take
          (linesNeeded mode marks age + 10)) 0,
      l ∈ ((pySplitNL (findPageText pages pageNumber)).drop (k + 1)).map pyStrip) ∧
    (3 ≤ (expandLoop mode (linesNeeded mode marks age)
        (((pySplitNL (findPageText pages pageNumber)).drop (k + 1)).take
          (linesNeeded mode marks age + 10)) 0).length →
      getExpandedContent pages pageNumber anchor mode marks age =
        joinNL (expandLoop mode (linesNeeded mode marks age)
          (((pySplitNL (findPageText pages pageNumber)).drop (k + 1)).take
            (linesNeeded mode marks age + 10)) 0)) ∧
    ((expandLoop mode (linesNeeded mode marks age)
        (((pySplitNL (findPageText pages pageNumber)).drop (k + 1)).take
          (linesNeeded mode marks age + 10)) 0).length < 3 →
      getExpandedContent pages pageNumber anchor mode marks age =
        anchor ++ "\n\n" ++ joinNL (expandLoop mode (linesNeeded mode marks age)
          (((pySplitNL (findPageText pages pageNumber)).drop (k + 1)).take
            (linesNeeded mode marks age + 10)) 0)) := by
  have hval : ¬(pageNumber ≤ 0 ∨ (pages.length : Int) < pageNumber) := by omega
  refine ⟨?_, ?_, ?_⟩
  · intro l hl
    obtain ⟨o, ho, rfl, _⟩ := expandLoop_mem hl
    exact List.mem_map.mpr ⟨o, List.take_subset _ _ ho, rfl⟩
  · intro hlen
    rw [getExpandedContent_found pages pageNumber anchor mode marks age k hval hne hk]
    rw [if_neg (by omega)]
  · intro hlen
    rw [getExpandedContent_found pages pageNumber anchor mode marks age k hval hne hk]
    rw [if_pos hlen]

/-- Claim C5 witness: on a page whose first line is the anchor and that has 3
content lines below it, the expansion returns exactly those 3 trimmed lines. -/
theorem C5_witness :
    getExpandedContent [⟨1, "A\nb one here.\nb two here.\nb three here."⟩] 1 "A" "general"
        none none = "b one here.\nb two here.\nb three here." := by
  have h := (C5_expansion_below_anchor [⟨1, "A\nb one here.\nb two here.\nb three here."⟩] 1
    "A" "general" none none 0 (by decide) (by decide) (by decide) (by decide)).2.1 (by decide)
  rw [h]
  decide

/-- Claim C6 (confirmed): a page number outside `1..page_count`, or an anchor
whose trimmed text is contained in no line of the page, makes
`get_expanded_content` return the anchor unchanged; no error is raised (the
function is total). -/
theorem C6_expansion_graceful (pages : List Page) (pageNumber : Int) (anchor mode : String)
    (marks age : Option Int) :
    ((pageNumber ≤ 0 ∨ (pages.length : Int) < pageNumber) →
      getExpandedContent pages pageNumber anchor mode marks age = anchor) ∧
    ((∀ line ∈ pySplitNL (findPageText pages pageNumber),
        pyContains line (pyStrip anchor) = false) →
      getExpandedContent pages pageNumber anchor mode marks age = anchor) := by
  constructor
  · intro h
    unfold getExpandedContent
    rw [if_pos h]
  · intro h
    unfold getExpandedContent
    by_cases h1 : pageNumber ≤ 0 ∨ (pages.length : Int) < pageNumber
    · rw [if_pos h1]
    · rw [if_neg h1]
      dsimp only
      by_cases h2 : findPageText pages pageNumber = ""
      · rw [if_pos h2]
      · rw [if_neg h2, findMatchIdx_none h]

/-- Claim C6 witness: a nonexistent page number returns the anchor unchanged. -/
theorem C6_witness :
    getExpandedContent [⟨1, "hello world"⟩] 5 "anchor text" "general" none none =
      "anchor text" :=
  (C6_expansion_graceful [⟨1, "hello world"⟩] 5 "anchor text" "general" none none).1
    (by decide)

theorem findSub_nil_needle (l : List Char) : findSub [] l = some 0 := by
  cases l with
  | nil => rfl
  | cons c rest =>
    unfold findSub
    rw [if_pos (by simp [List.isPrefixOf])]

theorem pyContains_empty_needle (s : String) : pyContains s "" = true := by
  unfold pyContains
  rw [show ("" : String).data = ([] : List Char) from rfl, findSub_nil_needle]
  rfl

theorem pySplitNL_ne_nil (s : String) : pySplitNL s ≠ [] := by
  unfold pySplitNL
  intro h
  exact splitOnPred_ne_nil _ _ (List.map_eq_nil_iff.mp h)

theorem findMatchIdx_cons_pos {α : Type} {pred : α → Bool} {x : α} {rest : List α}
    (h : pred x = true) : findMatchIdx pred (x :: rest) = some 0 := by
  unfold findMatchIdx
  rw [if_pos h]

/-- Claim C10 (confirmed): an empty or whitespace-only anchor trims to the
empty string, which is contained in every line; on a valid non-empty page the
first line (index 0) is therefore taken as the anchor line and the expansion
collects from the second line onward (or falls back to anchor plus partial
collection); the anchor-not-found path is never taken. -/
theorem C10_blank_anchor (pages : List Page) (pageNumber : Int) (anchor mode : String)
    (marks age : Option Int)
    (hpos : 0 < pageNumber) (hle : pageNumber ≤ (pages.length : Int))
    (hne : findPageText pages pageNumber ≠ "")
    (hanchor : pyStrip anchor = "") :
    (∀ line : String, pyContains line (pyStrip anchor) = true) ∧
    findMatchIdx (fun line => pyContains line (pyStrip anchor))
      (pySplitNL (findPageText pages pageNumber)) = some 0 ∧
    getExpandedContent pages pageNumber anchor mode marks age =
      (if (expandLoop mode (linesNeeded mode marks age)
            (((pySplitNL (findPageText pages pageNumber)).drop 1).take
              (linesNeeded mode marks age + 10)) 0).length < 3
       then anchor ++ "\n\n" ++ joinNL (expandLoop mode (linesNeeded mode marks age)
            (((pySplitNL (findPageText pages pageNumber)).drop 1).take
              (linesNeeded mode marks age + 10)) 0)
       else joinNL (expandLoop mode (linesNeeded mode marks age)
            (((pySplitNL (findPageText pages pageNumber)).drop 1).take
              (linesNeeded mode marks age + 10)) 0)) := by
  have hall : ∀ line : String, pyContains line (pyStrip anchor) = true := by
    intro line
    rw [hanchor]
    exact pyContains_empty_needle line
  have hidx : findMatchIdx (fun line => pyContains line (pyStrip anchor))
      (pySplitNL (findPageText pages pageNumber)) = some 0 := by
    rcases hl : pySplitNL (findPageText pages pageNumber) with _ | ⟨l0, ls⟩
    · exact absurd hl (pySplitNL_ne_nil _)
    · exact findMatchIdx_cons_pos (hall l0)
  refine ⟨hall, hidx, ?_⟩
  exact getExpandedContent_found pages pageNumber anchor mode marks age 0 (by omega) hne hidx

/-- Claim C10 witness: the theorem applied to a whitespace anchor on a page
with three content lines after its first line. -/
theorem C10_witness :
    getExpandedContent [⟨1, "x\ny one is.\nz two is.\nw three."⟩] 1 "  " "general"
        none none =
      (if (expandLoop "general" (linesNeeded "general" none none)
            (((pySplitNL (findPageText [⟨1, "x\ny one is.\nz two is.\nw three."⟩] 1)).drop
              1).take (linesNeeded "general" none none + 10)) 0).length < 3
       then "  " ++ "\n\n" ++ joinNL (expandLoop "general" (linesNeeded "general" none none)
            (((pySplitNL (findPageText [⟨1, "x\ny one is.\nz two is.\nw three."⟩] 1)).drop
              1).take (linesNeeded "general" none none + 10)) 0)
       else joinNL (expandLoop "general" (linesNeeded "general" none none)
            (((pySplitNL (findPageText [⟨1, "x\ny one is.\nz two is.\nw three."⟩] 1)).drop
              1).take (linesNeeded "general" none none + 10)) 0)) :=
  (C10_blank_anchor [⟨1, "x\ny one is.\nz two is.\nw three."⟩] 1 "  " "general" none none
    (by decide) (by decide) (by decide) (by decide)).2.2

/-- Claim C4 (confirmed): the heading test is identical in both extractors,
but the Excerpt Extractor stops on a heading only when more than 3 lines are
already collected (collecting the heading line itself otherwise), while the
Expansion Extractor stops on a heading unconditionally and never collects it. -/
theorem C4_heading_stop_asymmetry (mode : String) (needed : Nat) (line : String)
    (rest : List String)
    (hne : pyStrip line ≠ "") (hhead : isHeading (pyStrip line) = true) :
    (∀ count, 4 ≤ count → extractLoop mode needed (line :: rest) count = []) ∧
    (∀ count, count ≤ 3 →
      (extractLoop mode needed (line :: rest) count).head? = some (pyStrip line)) ∧
    (∀ count, expandLoop mode needed (line :: rest) count = []) := by
  refine ⟨?_, ?_, ?_⟩
  · intro count hc
    have hcond : (isHeading (pyStrip line) && decide (3 < count)) = true := by
      rw [hhead]
      simp only [Bool.true_and]
      exact decide_eq_true (by omega)
    rw [extractLoop_cons_eq, if_neg hne, if_pos hcond]
  · intro count hc
    have hcond : (isHeading (pyStrip line) && decide (3 < count)) = false := by
      rw [hhead]
      simp only [Bool.true_and]
      exact decide_eq_false (by omega)
    rw [extractLoop_cons_eq, if_neg hne, hcond]
    rw [if_neg Bool.false_ne_true]
    rfl
  · intro count
    rw [expandLoop_cons_eq, if_neg hne]
    by_cases h1 : (pyIsUpper (pyStrip line) && decide (10 < (pyStrip line).length)) = true
    · rw [if_pos h1]
    · rw [if_neg h1]
      have h2 : (headingPrefixes.any fun p => p.data.isPrefixOf (pyStrip line).data) = true := by
        unfold isHeading at hhead
        rcases (Bool.or_eq_true _ _).mp hhead with h' | h'
        · exact absurd h' h1
        · exact h'
      rw [if_pos h2]

/-- Claim C4 witness: the theorem applied to the heading line
`"CHAPTER ONE."`, at collected counts 4 and 0. -/
theorem C4_witness :
    extractLoop "general" 50 ["CHAPTER ONE."] 4 = [] ∧
    (extractLoop "general" 50 ["CHAPTER ONE."] 0).head? = some (pyStrip "CHAPTER ONE.") ∧
    expandLoop "general" 50 ["CHAPTER ONE."] 0 = [] := by
  have h := C4_heading_stop_asymmetry "general" 50 "CHAPTER ONE." [] (by decide) (by decide)
  exact ⟨h.1 4 (by decide), h.2.1 0 (by decide), h.2.2 0⟩

/-! ### Search -/

theorem findSub_some : ∀ {hay needle : List Char} {i : Nat},
    findSub needle hay = some i →
    needle <+: hay.drop i ∧ ∀ j < i, ¬ needle <+: hay.drop j := by
  intro hay
  induction hay with
  | nil =>
    intro needle i h
    unfold findSub at h
    by_cases hne : needle.isEmpty = true
    · rw [if_pos hne] at h
      cases h
      refine ⟨?_, ?_⟩
      · simp [List.isEmpty_iff.mp hne]
      · intro j hj; omega
    · rw [if_neg hne] at h; cases h
  | cons c rest ih =>
    intro needle i h
    unfold findSub at h
    by_cases hpre : needle.isPrefixOf (c :: rest) = true
    · rw [if_pos hpre] at h
      cases h
      refine ⟨?_, ?_⟩
      · simpa using List.isPrefixOf_iff_prefix.mp hpre
      · intro j hj; omega
    · rw [if_neg hpre] at h
      rcases hrec : findSub needle rest with _ | i'
      · rw [hrec] at h; cases h
      · rw [hrec] at h
        have hi : i = i' + 1 := by simpa using h.symm
        subst hi
        obtain ⟨h1, h2⟩ := ih hrec
        refine ⟨?_, ?_⟩
        · simpa using h1
        · intro j hj
          cases j with
          | zero =>
            simp only [List.drop_zero]
            intro hc
            exact hpre (List.isPrefixOf_iff_prefix.mpr hc)
          | succ j' =>
            have := h2 j' (by omega)
            simpa using this

theorem searchHit?_eq (query : String) (p : Page) :
    searchHit? query p =
      (if searchMatches query p = true then some (searchHitOf query p) else none) := by
  unfold searchHit? searchMatches searchHitOf
  rcases hfs : findSub (pyLower query).data (pyLower p.text).data with _ | idx
  · simp
  · simp

theorem searchInPdf_eq (pages : List Page) (query : String) :
    searchInPdf pages query =
      (pages.filter (searchMatches query)).map (searchHitOf query) := by
  induction pages with
  | nil => rfl
  | cons p rest ih =>
    show List.filterMap (searchHit? query) (p :: rest) = _
    rw [List.filterMap_cons, searchHit?_eq, List.filter_cons]
    by_cases hm : searchMatches query p = true
    · rw [if_pos hm, if_pos hm, List.map_cons]
      exact congrArg (searchHitOf query p :: ·) ih
    · rw [if_neg hm]
      rw [if_neg hm]
      exact ih

theorem pySlice_length (s : String) (a b : Nat) : (pySlice s a b).length ≤ b - a := by
  show ((s.data.take b).drop a).length ≤ b - a
  rw [List.length_drop, List.length_take]
  omega

/-- Claim C9 (confirmed): `search_in_pdf` returns exactly one hit per page
whose lowercased text contains the lowercased query, in page order (filter
then map); each hit's match position is the first occurrence of the query in
the lowercased page text (no earlier index carries an occurrence); and every
hit's context is at most `200 + len(query)` characters long. -/
theorem C9_search (pages : List Page) (query : String) :
    searchInPdf pages query =
        (pages.filter (searchMatches query)).map (searchHitOf query) ∧
    (∀ (p : Page) (i : Nat),
        findSub (pyLower query).data (pyLower p.text).data = some i →
          (pyLower query).data <+: ((pyLower p.text).data.drop i) ∧
          ∀ j < i, ¬ (pyLower query).data <+: ((pyLower p.text).data.drop j)) ∧
    (∀ hit ∈ searchInPdf pages query, hit.context.length ≤ 200 + query.length) := by
  refine ⟨searchInPdf_eq pages query, fun p i h => findSub_some h, ?_⟩
  intro hit hmem
  obtain ⟨p, hp, hhit⟩ := List.mem_filterMap.mp hmem
  unfold searchHit? at hhit
  rcases hfs : findSub (pyLower query).data (pyLower p.text).data with _ | idx
  · rw [hfs] at hhit; cases hhit
  · rw [hfs] at hhit
    cases hhit
    dsimp only
    have hb := pySlice_length p.text (idx - 100)
      (min (pyLower p.text).data.length (idx + query.length + 100))
    have hmin : min (pyLower p.text).data.length (idx + query.length + 100) ≤
        idx + query.length + 100 := Nat.min_le_right _ _
    omega

/-- Claim C9 witness: the theorem applied to a one-page corpus; the single
hit has a context bounded by `200 + len(query)`. -/
theorem C9_witness :
    (SearchHit.mk 1 "Say Hello" 4).context.length ≤ 200 + "hello".length :=
  (C9_search [⟨1, "Say Hello"⟩] "hello").2.2 ⟨1, "Say Hello", 4⟩ (by decide)
